import Mathlib

/-!
Shallow embedding of the clip-planning and composition pipeline of
`src/bot.py` (a Telegram video-splitting bot), together with theorems
settling the specification claims about it.

Conventions of the embedding:
* Python `float` durations are modelled by `ℚ` (exact arithmetic over the
  real-valued quantities the program manipulates).
* Python `int` values are modelled by `ℤ`.
* The external collaborators (ffmpeg probe, ffmpeg transcode, Telegram
  delivery) are modelled by an environment of oracles saying, for each
  call, whether it succeeds or raises.
* Exceptions are modelled by `Except` / explicit control flow, mirroring
  the `try/except/finally` structure of `get_color_and_process`.
-/

namespace ClipMaker

/-! ## ClipPlanner: `num_clips = math.ceil(total_duration / clip_duration)`
(src/bot.py line 94) and the per-iteration window
`start_time = i * clip_duration`, extraction `ss=start_time, t=clip_duration`
(lines 100 and 106). -/

/-- `math.ceil(total_duration / clip_duration)` from src/bot.py line 94.
`total_duration` is the probed float duration (modelled as `ℚ`),
`clip_duration` the user-entered integer. -/
def numClips (totalDuration : ℚ) (clipDuration : ℤ) : ℤ :=
  ⌈totalDuration / (clipDuration : ℚ)⌉

/-- One clip window: zero-based loop index `i`, start offset
`i * clip_duration` (line 100), and the effective extracted length.
The code requests `t=clip_duration` seconds starting at `ss=start_time`
(line 106); ffmpeg truncates the extraction at the end of the stream, so
the effective length is `min clip_duration (total_duration - start)`. -/
structure ClipWindow where
  index : ℕ
  start : ℚ
  length : ℚ
deriving DecidableEq, Repr

/-- The window built by loop iteration `i` of src/bot.py lines 98-106. -/
def mkWindow (totalDuration : ℚ) (clipDuration : ℤ) (i : ℕ) : ClipWindow :=
  { index := i
    start := (i : ℚ) * (clipDuration : ℚ)
    length := min (clipDuration : ℚ) (totalDuration - (i : ℚ) * (clipDuration : ℚ)) }

/-- The ordered sequence of windows produced by `for i in range(num_clips)`
(src/bot.py line 98): Python's `range` of a non-positive count is empty,
which `Int.toNat` reproduces. -/
def planWindows (totalDuration : ℚ) (clipDuration : ℤ) : List ClipWindow :=
  (List.range (numClips totalDuration clipDuration).toNat).map
    (mkWindow totalDuration clipDuration)

/-! ### Arithmetic facts about the plan -/

theorem numClips_pos {total : ℚ} {c : ℤ} (ht : 0 < total) (hc : 0 < c) :
    0 < numClips total c :=
  Int.ceil_pos.mpr (div_pos ht (by exact_mod_cast hc))

theorem total_le_numClips_mul (total : ℚ) {c : ℤ} (hc : 0 < c) :
    total ≤ (numClips total c : ℚ) * (c : ℚ) := by
  have hcQ : (0 : ℚ) < (c : ℚ) := by exact_mod_cast hc
  have h := Int.le_ceil (total / (c : ℚ))
  calc total = total / (c : ℚ) * (c : ℚ) := by field_simp
    _ ≤ (numClips total c : ℚ) * (c : ℚ) := by
        exact mul_le_mul_of_nonneg_right h (le_of_lt hcQ)

theorem pred_numClips_mul_lt (total : ℚ) {c : ℤ} (hc : 0 < c) :
    ((numClips total c : ℚ) - 1) * (c : ℚ) < total := by
  have hcQ : (0 : ℚ) < (c : ℚ) := by exact_mod_cast hc
  have h : ((numClips total c - 1 : ℤ) : ℚ) < total / (c : ℚ) := by
    refine Int.lt_ceil.mp ?_
    exact sub_lt_self _ one_pos
  have := (lt_div_iff₀ hcQ).mp h
  push_cast at this ⊢
  linarith

/-- If `i` is not the index of the last planned window, the remaining
duration past its start is at least a full clip length. -/
theorem clip_le_remaining {total : ℚ} {c : ℤ} (hc : 0 < c) {i : ℕ}
    (hi : (i : ℤ) + 1 < numClips total c) :
    (c : ℚ) ≤ total - (i : ℚ) * (c : ℚ) := by
  have hcQ : (0 : ℚ) < (c : ℚ) := by exact_mod_cast hc
  have hle : ((i : ℚ) + 1) ≤ (numClips total c : ℚ) - 1 := by
    exact_mod_cast (by omega : (i : ℤ) + 1 ≤ numClips total c - 1)
  have h1 : ((i : ℚ) + 1) * (c : ℚ) ≤ ((numClips total c : ℚ) - 1) * (c : ℚ) :=
    mul_le_mul_of_nonneg_right hle hcQ.le
  have h2 := pred_numClips_mul_lt total hc
  nlinarith

theorem planWindows_length (total : ℚ) (c : ℤ) :
    (planWindows total c).length = (numClips total c).toNat := by
  simp [planWindows]

theorem planWindows_get (total : ℚ) (c : ℤ) (i : ℕ)
    (h : i < (planWindows total c).length) :
    (planWindows total c).get ⟨i, h⟩ = mkWindow total c i := by
  simp [planWindows]

theorem mem_planWindows {total : ℚ} {c : ℤ} {w : ClipWindow} :
    w ∈ planWindows total c ↔
      ∃ i < (numClips total c).toNat, w = mkWindow total c i := by
  simp only [planWindows, List.mem_map, List.mem_range]
  constructor
  · rintro ⟨i, hi, rfl⟩; exact ⟨i, hi, rfl⟩
  · rintro ⟨i, hi, rfl⟩; exact ⟨i, hi, rfl⟩

/-- C1: for positive total duration and requested clip length, the plan has
exactly `⌈totalDuration / requestedLength⌉` windows, whose start offsets are
`0, L, 2L, …` in increasing index order; in particular 125 s at 60 s per
clip gives 3 windows starting at 0, 60, 120, and 60 s at 60 s gives exactly
one window. -/
theorem plan_produces_ceil_clips (total : ℚ) (c : ℤ)
    (ht : 0 < total) (hc : 0 < c) :
    ((planWindows total c).length : ℤ) = numClips total c ∧
    (∀ i, ∀ h : i < (planWindows total c).length,
        ((planWindows total c).get ⟨i, h⟩).start = (i : ℚ) * (c : ℚ) ∧
        ((planWindows total c).get ⟨i, h⟩).index = i) ∧
    planWindows 125 60 = [⟨0, 0, 60⟩, ⟨1, 60, 60⟩, ⟨2, 120, 5⟩] ∧
    planWindows 60 60 = [⟨0, 0, 60⟩] := by
  refine ⟨?_, ?_, ?_, ?_⟩
  · rw [planWindows_length]
    exact Int.toNat_of_nonneg (numClips_pos ht hc).le
  · intro i h
    rw [planWindows_get]
    exact ⟨rfl, rfl⟩
  · have h : numClips 125 60 = 3 := by norm_num [numClips, Int.ceil_eq_iff]
    simp [planWindows, h, mkWindow, List.range_succ]
    norm_num
  · have h : numClips 60 60 = 1 := by norm_num [numClips, Int.ceil_eq_iff]
    simp [planWindows, h, mkWindow, List.range_succ]

theorem plan_produces_ceil_clips_witness :
    (0 : ℚ) < 125 ∧ (0 : ℤ) < 60 ∧
    ((planWindows 125 60).length : ℤ) = numClips 125 60 ∧
    planWindows 125 60 = [⟨0, 0, 60⟩, ⟨1, 60, 60⟩, ⟨2, 120, 5⟩] ∧
    planWindows 60 60 = [⟨0, 0, 60⟩] := by
  have h := plan_produces_ceil_clips 125 60 (by norm_num) (by norm_num)
  exact ⟨by norm_num, by norm_num, h.1, h.2.2.1, h.2.2.2⟩

/-- C2: each window's length is `min requestedLength (total - start)`; every
window except the last is full length, the last one's length is the
remaining duration; windows are pairwise ordered without overlap and
together cover exactly `[0, total)`. -/
theorem windows_truncate_and_cover (total : ℚ) (c : ℤ)
    (ht : 0 < total) (hc : 0 < c) :
    (∀ w ∈ planWindows total c,
        w.length = min (c : ℚ) (total - w.start)) ∧
    (∀ i, ∀ h : i < (planWindows total c).length,
        i + 1 < (planWindows total c).length →
        ((planWindows total c).get ⟨i, h⟩).length = (c : ℚ)) ∧
    (∀ i, ∀ h : i < (planWindows total c).length,
        i + 1 = (planWindows total c).length →
        ((planWindows total c).get ⟨i, h⟩).length =
          total - ((planWindows total c).get ⟨i, h⟩).start) ∧
    ((planWindows total c).Pairwise fun w w' =>
        w.start + w.length ≤ w'.start) ∧
    (∀ t : ℚ, (0 ≤ t ∧ t < total) ↔
        ∃ w ∈ planWindows total c, w.start ≤ t ∧ t < w.start + w.length) := by
  have hcQ : (0 : ℚ) < (c : ℚ) := by exact_mod_cast hc
  refine ⟨?_, ?_, ?_, ?_, ?_⟩
  · intro w hw
    obtain ⟨i, _, rfl⟩ := mem_planWindows.mp hw
    simp [mkWindow]
  · intro i h hlt
    rw [planWindows_get]
    rw [planWindows_length] at hlt
    have hi : (i : ℤ) + 1 < numClips total c := by omega
    simpa [mkWindow] using min_eq_left (clip_le_remaining hc hi)
  · intro i h hlast
    rw [planWindows_get]
    rw [planWindows_length] at hlast
    have hn := numClips_pos ht hc
    have hiQ : (numClips total c : ℚ) = (i : ℚ) + 1 := by
      exact_mod_cast (by omega : numClips total c = (i : ℤ) + 1)
    have hle : total - (i : ℚ) * (c : ℚ) ≤ (c : ℚ) := by
      have := total_le_numClips_mul total hc
      rw [hiQ] at this
      nlinarith
    simp [mkWindow, min_eq_right hle]
  · rw [planWindows]
    refine List.Pairwise.map _ ?_ (List.pairwise_lt_range _)
    intro a b hab
    simp only [mkWindow]
    have h1 : min (c : ℚ) (total - (a : ℚ) * (c : ℚ)) ≤ (c : ℚ) := min_le_left _ _
    have h2 : ((a : ℚ) + 1) * (c : ℚ) ≤ (b : ℚ) * (c : ℚ) := by
      have : ((a : ℚ) + 1) ≤ (b : ℚ) := by exact_mod_cast hab
      exact mul_le_mul_of_nonneg_right this hcQ.le
    nlinarith
  · intro t
    constructor
    · rintro ⟨ht0, htt⟩
      have hj0 : 0 ≤ ⌊t / (c : ℚ)⌋ :=
        Int.floor_nonneg.mpr (div_nonneg ht0 hcQ.le)
      have hjn : ⌊t / (c : ℚ)⌋ < numClips total c :=
        Int.floor_lt.mpr ((div_lt_iff₀ hcQ).mpr
          (lt_of_lt_of_le htt (total_le_numClips_mul total hc)))
      refine ⟨mkWindow total c ⌊t / (c : ℚ)⌋.toNat,
        mem_planWindows.mpr ⟨_, by omega, rfl⟩, ?_, ?_⟩
      · have hcast : ((⌊t / (c : ℚ)⌋.toNat : ℚ)) = ((⌊t / (c : ℚ)⌋ : ℤ) : ℚ) := by
          exact_mod_cast congrArg (fun z : ℤ => (z : ℚ))
            (Int.toNat_of_nonneg hj0)
        show (⌊t / (c : ℚ)⌋.toNat : ℚ) * (c : ℚ) ≤ t
        rw [hcast]
        exact (le_div_iff₀ hcQ).mp (Int.floor_le _)
      · have hcast : ((⌊t / (c : ℚ)⌋.toNat : ℚ)) = ((⌊t / (c : ℚ)⌋ : ℤ) : ℚ) := by
          exact_mod_cast congrArg (fun z : ℤ => (z : ℚ))
            (Int.toNat_of_nonneg hj0)
        show t < (⌊t / (c : ℚ)⌋.toNat : ℚ) * (c : ℚ) +
          min (c : ℚ) (total - (⌊t / (c : ℚ)⌋.toNat : ℚ) * (c : ℚ))
        rw [hcast]
        have hup : t < ((⌊t / (c : ℚ)⌋ : ℤ) : ℚ) * (c : ℚ) + (c : ℚ) := by
          have := (div_lt_iff₀ hcQ).mp (Int.lt_floor_add_one (t / (c : ℚ)))
          nlinarith
        rcases le_total (c : ℚ) (total - ((⌊t / (c : ℚ)⌋ : ℤ) : ℚ) * (c : ℚ)) with hm | hm
        · rw [min_eq_left hm]; exact hup
        · rw [min_eq_right hm]; linarith
    · rintro ⟨w, hw, hle, hlt⟩
      obtain ⟨i, _, rfl⟩ := mem_planWindows.mp hw
      simp only [mkWindow] at hle hlt
      have h0 : (0 : ℚ) ≤ (i : ℚ) * (c : ℚ) :=
        mul_nonneg (Nat.cast_nonneg i) hcQ.le
      have hmin : min (c : ℚ) (total - (i : ℚ) * (c : ℚ)) ≤
          total - (i : ℚ) * (c : ℚ) := min_le_right _ _
      exact ⟨le_trans h0 hle, by linarith⟩

theorem windows_truncate_and_cover_witness :
    (0 : ℚ) < 125 ∧ (0 : ℤ) < 60 ∧
    ((planWindows 125 60).Pairwise fun w w' =>
        w.start + w.length ≤ w'.start) := by
  have h := windows_truncate_and_cover 125 60 (by norm_num) (by norm_num)
  exact ⟨by norm_num, by norm_num, h.2.2.2.1⟩

/-! ## Front-end duration prompt (`get_duration`, src/bot.py lines 62-68):
`int(update.message.text)` inside `try`; a `ValueError` re-prompts and stays
in the `GET_DURATION` state, any parsed integer is stored and the
conversation advances to `GET_COLOR`. -/

/-- A maximal run of decimal digits read as a number; `none` if the list is
empty or contains a non-digit. -/
def parseDigits : List Char → Option ℕ
  | [] => none
  | cs =>
    if cs.all Char.isDigit then
      some (cs.foldl (fun a ch => a * 10 + (ch.toNat - 48)) 0)
    else none

/-- Leading and trailing whitespace removed. -/
def pyTrim (cs : List Char) : List Char :=
  ((cs.dropWhile Char.isWhitespace).reverse.dropWhile Char.isWhitespace).reverse

/-- Python `int(text)` as called on src/bot.py line 65: surrounding
whitespace is ignored, then an optional sign followed by one or more
decimal digits; anything else raises `ValueError`, modelled as `none`.
(Python's digit-group underscores are not modelled.) -/
def pyParseInt (s : String) : Option ℤ :=
  match pyTrim s.toList with
  | '-' :: rest => (parseDigits rest).map (fun n => -(n : ℤ))
  | '+' :: rest => (parseDigits rest).map (fun n => (n : ℤ))
  | cs => (parseDigits cs).map (fun n => (n : ℤ))

/-- Outcome of the `GET_DURATION` conversation step. -/
inductive DurationStep where
  /-- The text parsed: the value is stored in `user_data['duration']` and
  the conversation advances to `GET_COLOR`. -/
  | accepted (d : ℤ)
  /-- `int()` raised `ValueError`: an error message is sent and the
  conversation stays in `GET_DURATION`. -/
  | reprompt
deriving DecidableEq, Repr

/-- `get_duration` from src/bot.py lines 62-68. -/
def get_duration (text : String) : DurationStep :=
  match pyParseInt text with
  | some d => .accepted d
  | none => .reprompt

/-! ## CompositionSpec builder: the ffmpeg filter graph built inside the
loop of `get_color_and_process` (src/bot.py lines 106-150). -/

/-- One `drawtext` filter invocation. `xPos`/`yPos` are the position
expressions: functions of the input-frame dimension (`w` resp. `h`, here the
1080×1920 canvas after the overlay) and the measured text dimension
(`text_w` resp. `text_h`). -/
structure TextLayer where
  text : String
  xPos : ℚ → ℚ → ℚ
  yPos : ℚ → ℚ → ℚ
  fontsize : ℕ
  fontcolor : String
  fontfile : String
  hasBox : Bool
  boxcolor : Option String
  boxborderw : Option ℕ

/-- The title `drawtext` (src/bot.py lines 120-128):
`x='(w-text_w)/2'`, `y='(h-text_h)/2 - 700'`, size 70, black, no box. -/
def titleLayer (title : String) : TextLayer :=
  { text := title
    xPos := fun w tw => (w - tw) / 2
    yPos := fun h th => (h - th) / 2 - 700
    fontsize := 70
    fontcolor := "black"
    fontfile := "fonts/LiberationSans-Regular.ttf"
    hasBox := false
    boxcolor := none
    boxborderw := none }

/-- The channel `drawtext` (src/bot.py lines 129-138): fixed position
(40, 40), size 40, white, semi-transparent black box with 10-unit border. -/
def channelLayer (channel : String) : TextLayer :=
  { text := channel
    xPos := fun _ _ => 40
    yPos := fun _ _ => 40
    fontsize := 40
    fontcolor := "white"
    fontfile := "fonts/LiberationSans-Regular.ttf"
    hasBox := true
    boxcolor := some "black@0.5"
    boxborderw := some 10 }

/-- The part-label `drawtext` (src/bot.py lines 139-147) for the window of
zero-based loop index `i`: text `f"PART {part_num}"` with
`part_num = i + 1` (line 99), `x='(w-text_w)/2'`, `y='(h-text_h)/2 + 700'`,
size 60, black, no box. -/
def partLayer (i : ℕ) : TextLayer :=
  { text := "PART " ++ toString (i + 1)
    xPos := fun w tw => (w - tw) / 2
    yPos := fun h th => (h - th) / 2 + 700
    fontsize := 60
    fontcolor := "black"
    fontfile := "fonts/LiberationSans-Regular.ttf"
    hasBox := false
    boxcolor := none
    boxborderw := none }

/-- The styling parameters accumulated by the conversation before
processing starts. -/
structure JobInput where
  title : String
  channel : String
  color : String

/-- The declarative composition description built for one window: input
sub-range, scaling, canvas, overlay placement, the three text layers and
the output/encode parameters (src/bot.py lines 106-150). -/
structure CompositionSpec where
  ssStart : ℚ
  tLen : ℚ
  scaleW : ℤ
  scaleH : ℤ
  bgColor : String
  canvasW : ℚ
  canvasH : ℚ
  overlayX : ℚ → ℚ → ℚ
  overlayY : ℚ → ℚ → ℚ
  titleText : TextLayer
  channelText : TextLayer
  partText : TextLayer
  vcodec : String
  acodec : String
  preset : String
  movflags : String

/-- The composition built by loop iteration `i` of
`get_color_and_process`: extraction at `ss = i * clip_duration` for
`t = clip_duration` seconds, video scaled to width 1000 (height auto),
solid `color` canvas of 1080×1920, source overlaid centered
(`x='(W-w)/2'`, `y='(H-h)/2'`), the three text layers, and the encode
options of line 150. -/
def buildSpec (job : JobInput) (clipDuration : ℤ) (i : ℕ) : CompositionSpec :=
  { ssStart := (i : ℚ) * (clipDuration : ℚ)
    tLen := (clipDuration : ℚ)
    scaleW := 1000
    scaleH := -1
    bgColor := job.color
    canvasW := 1080
    canvasH := 1920
    overlayX := fun W w => (W - w) / 2
    overlayY := fun H h => (H - h) / 2
    titleText := titleLayer job.title
    channelText := channelLayer job.channel
    partText := partLayer i
    vcodec := "libx264"
    acodec := "aac"
    preset := "fast"
    movflags := "frag_keyframe+empty_moov" }

/-- C8: on the 1080×1920 canvas, the title layer's top-left draw position
for measured text width `w` and height `h` is
`((1080 - w)/2, (1920 - h)/2 - 700)`, with font size 70, black glyphs and
no background box. -/
theorem title_layer_layout (job : JobInput) (c : ℤ) (i : ℕ) (w h : ℚ) :
    (buildSpec job c i).canvasW = 1080 ∧
    (buildSpec job c i).canvasH = 1920 ∧
    (buildSpec job c i).titleText.text = job.title ∧
    (buildSpec job c i).titleText.xPos 1080 w = (1080 - w) / 2 ∧
    (buildSpec job c i).titleText.yPos 1920 h = (1920 - h) / 2 - 700 ∧
    (buildSpec job c i).titleText.fontsize = 70 ∧
    (buildSpec job c i).titleText.fontcolor = "black" ∧
    (buildSpec job c i).titleText.hasBox = false :=
  ⟨rfl, rfl, rfl, rfl, rfl, rfl, rfl, rfl⟩

/-- C9: the part-label layer of the window with zero-based index `i` reads
`"PART <n>"` where `n = i + 1` is that window's 1-based ordinal, centered
horizontally, 700 units below the visual center, font size 60, black
glyphs, no background box. -/
theorem part_label_layout (job : JobInput) (c : ℤ) (i : ℕ) (w h : ℚ) :
    (buildSpec job c i).partText.text = "PART " ++ toString (i + 1) ∧
    (buildSpec job c i).partText.xPos 1080 w = (1080 - w) / 2 ∧
    (buildSpec job c i).partText.yPos 1920 h = (1920 - h) / 2 + 700 ∧
    (buildSpec job c i).partText.fontsize = 60 ∧
    (buildSpec job c i).partText.fontcolor = "black" ∧
    (buildSpec job c i).partText.hasBox = false :=
  ⟨rfl, rfl, rfl, rfl, rfl, rfl⟩

/-! ## SessionCleanup, cancellation and the delivery pipeline
(src/bot.py lines 76-184). -/

/-- State of one file path: whether the file currently exists, and whether
an `os.remove` on it would raise (e.g. a permission error). -/
structure FileState where
  present : Bool
  removeFails : Bool
deriving DecidableEq, Repr

/-- The source-file cleanup in the `finally` block of src/bot.py lines
165-168: `if os.path.exists(path): os.remove(path)`. A raising `os.remove`
is not caught anywhere, so its error propagates (`Except.error`). -/
def sessionCleanup (fs : FileState) : Except String FileState :=
  if fs.present then
    if fs.removeFails then Except.error "OSError"
    else Except.ok { fs with present := false }
  else Except.ok fs

/-- `cancel` from src/bot.py lines 173-184: deletes the downloaded source
only when `video_path` was recorded in `user_data` and the file exists
(lines 178-179) — the same guarded deletion as the `finally` block. -/
def cancel (hasVideoPath : Bool) (fs : FileState) : Except String FileState :=
  if hasVideoPath then sessionCleanup fs else Except.ok fs

/-- Oracles for one job's external collaborators: the probe result
(`none` = `ffmpeg.probe` on line 92 raises), per-index failure of the
transcode (`ffmpeg.run`, line 151) and of the delivery (`send_video`,
line 155), and the state of the uploaded source file. -/
structure Env where
  probe : Option ℚ
  transcodeFails : ℕ → Bool
  deliverFails : ℕ → Bool
  source : FileState

/-- Iteration `i` of the clip loop raises iff its transcode or its
delivery fails. -/
def fails (tf df : ℕ → Bool) (i : ℕ) : Bool := tf i || df i

/-- Observable outcome of the clip loop (src/bot.py lines 98-158): the
zero-based indices whose iteration was entered, the part numbers handed to
the sink in delivery order, the part numbers whose local artifact file
still exists when the loop is left, and whether the loop ran to completion
without an exception. -/
structure LoopResult where
  attempted : List ℕ
  delivered : List ℕ
  artifacts : List ℕ
  ok : Bool
deriving DecidableEq, Repr

/-- The clip loop of src/bot.py lines 98-158, iterating the zero-based
index from `i` for `r` further iterations. A transcode failure (line 151)
raises before a usable artifact exists (the Transcoder contract is
all-or-nothing), so no artifact remains; a delivery failure (line 155)
raises after the artifact was produced but before
`os.remove(output_filename)` (line 158), so that part's artifact survives
the raise. On success the artifact is removed and the loop continues. -/
def processClips (tf df : ℕ → Bool) : ℕ → ℕ → LoopResult
  | _, 0 => ⟨[], [], [], true⟩
  | i, r + 1 =>
    if tf i then ⟨[i], [], [], false⟩
    else if df i then ⟨[i], [], [i + 1], false⟩
    else
      let rest := processClips tf df (i + 1) r
      ⟨i :: rest.attempted, (i + 1) :: rest.delivered, rest.artifacts, rest.ok⟩

/-- Observable outcome of one whole job run: loop observables, the number
of error messages sent by the `except` clause (lines 162-164), whether the
final "All done!" message was sent (line 160), how many times the
`finally` cleanup block ran (lines 165-168), and the resulting state of
the source file. -/
structure RunResult where
  attempted : List ℕ
  delivered : List ℕ
  artifacts : List ℕ
  errors : ℕ
  allDone : Bool
  cleanupCalls : ℕ
  source : Except String FileState
deriving Repr

/-- The processing body of `get_color_and_process` (src/bot.py lines
86-170). A probe failure raises before any clip work; `clip_duration = 0`
raises `ZeroDivisionError` at line 94; otherwise
`num_clips = ⌈total / clip⌉` and the loop runs over
`range(num_clips)` (empty when `num_clips ≤ 0`). Any exception is caught
once by the single `except` clause; the `finally` block always performs
the source cleanup exactly once. -/
def get_color_and_process (env : Env) (clipDuration : ℤ) : RunResult :=
  match env.probe with
  | none =>
      { attempted := [], delivered := [], artifacts := [], errors := 1,
        allDone := false, cleanupCalls := 1,
        source := sessionCleanup env.source }
  | some total =>
      if clipDuration = 0 then
        { attempted := [], delivered := [], artifacts := [], errors := 1,
          allDone := false, cleanupCalls := 1,
          source := sessionCleanup env.source }
      else
        let lr := processClips env.transcodeFails env.deliverFails 0
          (numClips total clipDuration).toNat
        { attempted := lr.attempted, delivered := lr.delivered,
          artifacts := lr.artifacts,
          errors := if lr.ok then 0 else 1, allDone := lr.ok,
          cleanupCalls := 1,
          source := sessionCleanup env.source }

/-! ### Branch lemmas for the run -/

theorem run_probe_none {env : Env} {c : ℤ} (henv : env.probe = none) :
    get_color_and_process env c =
      ⟨[], [], [], 1, false, 1, sessionCleanup env.source⟩ := by
  simp [get_color_and_process, henv]

theorem run_zero_duration {env : Env} {total : ℚ}
    (henv : env.probe = some total) :
    get_color_and_process env 0 =
      ⟨[], [], [], 1, false, 1, sessionCleanup env.source⟩ := by
  simp [get_color_and_process, henv]

theorem run_loop {env : Env} {total : ℚ} {c : ℤ}
    (henv : env.probe = some total) (hc : c ≠ 0) :
    get_color_and_process env c =
      { attempted := (processClips env.transcodeFails env.deliverFails 0
            (numClips total c).toNat).attempted
        delivered := (processClips env.transcodeFails env.deliverFails 0
            (numClips total c).toNat).delivered
        artifacts := (processClips env.transcodeFails env.deliverFails 0
            (numClips total c).toNat).artifacts
        errors := if (processClips env.transcodeFails env.deliverFails 0
            (numClips total c).toNat).ok then 0 else 1
        allDone := (processClips env.transcodeFails env.deliverFails 0
            (numClips total c).toNat).ok
        cleanupCalls := 1
        source := sessionCleanup env.source } := by
  simp [get_color_and_process, henv, hc]

theorem run_source (env : Env) (c : ℤ) :
    (get_color_and_process env c).source = sessionCleanup env.source := by
  cases henv : env.probe with
  | none => rw [run_probe_none henv]
  | some total =>
      by_cases hc : c = 0
      · subst hc; rw [run_zero_duration henv]
      · rw [run_loop henv hc]

theorem run_cleanupCalls (env : Env) (c : ℤ) :
    (get_color_and_process env c).cleanupCalls = 1 := by
  cases henv : env.probe with
  | none => rw [run_probe_none henv]
  | some total =>
      by_cases hc : c = 0
      · subst hc; rw [run_zero_duration henv]
      · rw [run_loop henv hc]

/-! ### Structural lemmas about the clip loop -/

theorem processClips_clean (tf df : ℕ → Bool) :
    ∀ (r i : ℕ), (∀ k, i ≤ k → k < i + r → fails tf df k = false) →
    processClips tf df i r =
      ⟨List.range' i r, (List.range' i r).map (· + 1), [], true⟩ := by
  intro r
  induction r with
  | zero => intro i _; simp [processClips, List.range']
  | succ r ih =>
      intro i h
      have hi : tf i = false ∧ df i = false := by
        simpa [fails, Bool.or_eq_false_iff] using h i le_rfl (by omega)
      have htf : tf i = false := hi.1
      have hdf : df i = false := hi.2
      have hrest := ih (i + 1) (fun k hk1 hk2 => h k (by omega) (by omega))
      simp [processClips, htf, hdf, hrest, List.range']

theorem processClips_fail_at (tf df : ℕ → Bool) :
    ∀ (r i k : ℕ), i ≤ k → k < i + r → fails tf df k = true →
    (∀ j, i ≤ j → j < k → fails tf df j = false) →
    processClips tf df i r =
      ⟨List.range' i (k - i + 1), (List.range' i (k - i)).map (· + 1),
        if tf k then [] else [k + 1], false⟩ := by
  intro r
  induction r with
  | zero => intro i k h1 h2; omega
  | succ r ih =>
      intro i k h1 h2 hk hpre
      by_cases hik : k = i
      · subst hik
        have : k - k = 0 := by omega
        by_cases htf : tf k
        · simp [processClips, htf, List.range']
        · have hdf : df k = true := by
            rcases Bool.or_eq_true_iff.mp (by simpa [fails] using hk) with h | h
            · exact absurd h htf
            · exact h
          simp [processClips, htf, hdf, List.range']
      · have hlt : i < k := by omega
        have hfi : tf i = false ∧ df i = false := by
          simpa [fails, Bool.or_eq_false_iff] using hpre i le_rfl hlt
        have htf : tf i = false := hfi.1
        have hdf : df i = false := hfi.2
        have hrest := ih (i + 1) k (by omega) (by omega) hk
          (fun j hj1 hj2 => hpre j (by omega) hj2)
        have hki : k - i = (k - (i + 1)) + 1 := by omega
        simp [processClips, htf, hdf, hrest, hki, List.range']

theorem processClips_delivered_lb (tf df : ℕ → Bool) :
    ∀ (r i p : ℕ), p ∈ (processClips tf df i r).delivered → i < p := by
  intro r
  induction r with
  | zero => intro i p h; simp [processClips] at h
  | succ r ih =>
      intro i p h
      by_cases htf : tf i
      · simp [processClips, htf] at h
      · by_cases hdf : df i
        · simp [processClips, htf, hdf] at h
        · simp only [processClips, htf, hdf, if_false, Bool.false_eq_true,
            List.mem_cons] at h
          rcases h with rfl | h
          · omega
          · have := ih (i + 1) p h; omega

theorem processClips_artifacts_lb (tf df : ℕ → Bool) :
    ∀ (r i p : ℕ), p ∈ (processClips tf df i r).artifacts → i < p := by
  intro r
  induction r with
  | zero => intro i p h; simp [processClips] at h
  | succ r ih =>
      intro i p h
      by_cases htf : tf i
      · simp [processClips, htf] at h
      · by_cases hdf : df i
        · simp [processClips, htf, hdf] at h; omega
        · simp only [processClips, htf, hdf, if_false, Bool.false_eq_true] at h
          have := ih (i + 1) p h; omega

theorem processClips_delivered_sorted (tf df : ℕ → Bool) :
    ∀ (r i : ℕ), (processClips tf df i r).delivered.Pairwise (· < ·) := by
  intro r
  induction r with
  | zero => intro i; simp [processClips]
  | succ r ih =>
      intro i
      by_cases htf : tf i
      · simp [processClips, htf]
      · by_cases hdf : df i
        · simp [processClips, htf, hdf]
        · simp only [processClips, htf, hdf, if_false, Bool.false_eq_true]
          refine List.Pairwise.cons ?_ (ih (i + 1))
          intro p hp
          exact lt_of_le_of_lt (by omega)
            (processClips_delivered_lb tf df r (i + 1) p hp)

theorem processClips_delivered_not_artifact (tf df : ℕ → Bool) :
    ∀ (r i p : ℕ), p ∈ (processClips tf df i r).delivered →
      p ∉ (processClips tf df i r).artifacts := by
  intro r
  induction r with
  | zero => intro i p h; simp [processClips] at h
  | succ r ih =>
      intro i p h
      by_cases htf : tf i
      · simp [processClips, htf] at h
      · by_cases hdf : df i
        · simp [processClips, htf, hdf] at h
        · simp only [processClips, htf, hdf, if_false, Bool.false_eq_true,
            List.mem_cons] at h ⊢
          rcases h with rfl | h
          · intro hmem
            have := processClips_artifacts_lb tf df r (i + 1) (i + 1) hmem
            omega
          · exact ih (i + 1) p h

theorem processClips_attempted_no_earlier_fail (tf df : ℕ → Bool) :
    ∀ (r i p : ℕ), p ∈ (processClips tf df i r).attempted →
      ∀ k, i ≤ k → k < p → fails tf df k = false := by
  intro r
  induction r with
  | zero => intro i p h; simp [processClips] at h
  | succ r ih =>
      intro i p h k hk1 hk2
      by_cases htf : tf i
      · simp [processClips, htf] at h
        omega
      · by_cases hdf : df i
        · simp [processClips, htf, hdf] at h
          omega
        · simp only [processClips, htf, hdf, if_false, Bool.false_eq_true,
            List.mem_cons] at h
          rcases h with rfl | h
          · omega
          · by_cases hki : k = i
            · subst hki; simp [fails, htf, hdf]
            · exact ih (i + 1) p h k (by omega) hk2

theorem processClips_ok_all_delivered (tf df : ℕ → Bool) :
    ∀ (r i : ℕ), (processClips tf df i r).ok = true →
      (processClips tf df i r).artifacts = [] ∧
      (processClips tf df i r).delivered = (List.range' i r).map (· + 1) := by
  intro r
  induction r with
  | zero => intro i _; simp [processClips, List.range']
  | succ r ih =>
      intro i hok
      by_cases htf : tf i
      · simp [processClips, htf] at hok
      · by_cases hdf : df i
        · simp [processClips, htf, hdf] at hok
        · simp only [processClips, htf, hdf, if_false, Bool.false_eq_true] at hok ⊢
          obtain ⟨h1, h2⟩ := ih (i + 1) hok
          simp [h1, h2, List.range']

/-! ### Claim theorems about the pipeline -/

theorem sessionCleanup_removes {fs : FileState} (h : fs.removeFails = false) :
    ∃ fs', sessionCleanup fs = Except.ok fs' ∧ fs'.present = false := by
  cases hp : fs.present
  · exact ⟨fs, by simp [sessionCleanup, hp], hp⟩
  · exact ⟨{ fs with present := false }, by simp [sessionCleanup, hp, h], rfl⟩

theorem run_nonpos_numClips (env : Env) (total : ℚ) (c : ℤ)
    (henv : env.probe = some total) (hc : c ≠ 0)
    (h : numClips total c ≤ 0) :
    get_color_and_process env c =
      ⟨[], [], [], 0, true, 1, sessionCleanup env.source⟩ := by
  rw [run_loop henv hc]
  have h0 : (numClips total c).toNat = 0 := by omega
  simp [h0, processClips]

/-- C3: the sink receives parts in strictly increasing order; at most one
error is reported; if iteration `k` fails (transcode or delivery), no
window with index beyond `k` is attempted; when `k` is the first failing
index within range, every earlier part was already delivered and exactly
one error is reported; and the `finally` cleanup still removes the source
file. -/
theorem pipeline_order_and_abort (env : Env) (c : ℤ)
    (hrf : env.source.removeFails = false) :
    (get_color_and_process env c).delivered.Pairwise (· < ·) ∧
    (get_color_and_process env c).errors ≤ 1 ∧
    (∀ k, fails env.transcodeFails env.deliverFails k = true →
      ∀ j ∈ (get_color_and_process env c).attempted, j ≤ k) ∧
    (∀ total k, env.probe = some total → c ≠ 0 →
      k < (numClips total c).toNat →
      fails env.transcodeFails env.deliverFails k = true →
      (∀ j, j < k → fails env.transcodeFails env.deliverFails j = false) →
      (get_color_and_process env c).delivered =
        (List.range' 0 k).map (· + 1) ∧
      (get_color_and_process env c).errors = 1) ∧
    (∃ fs, (get_color_and_process env c).source = Except.ok fs ∧
      fs.present = false) := by
  refine ⟨?_, ?_, ?_, ?_, ?_⟩
  · cases henv : env.probe with
    | none => rw [run_probe_none henv]; simp
    | some total =>
        by_cases hc : c = 0
        · subst hc; rw [run_zero_duration henv]; simp
        · rw [run_loop henv hc]
          exact processClips_delivered_sorted _ _ _ _
  · cases henv : env.probe with
    | none => rw [run_probe_none henv]
    | some total =>
        by_cases hc : c = 0
        · subst hc; rw [run_zero_duration henv]
        · rw [run_loop henv hc]
          split <;> simp
  · intro k hk j hj
    rcases henv : env.probe with _ | total
    · rw [run_probe_none henv] at hj; simp at hj
    · by_cases hc : c = 0
      · subst hc; rw [run_zero_duration henv] at hj; simp at hj
      · rw [run_loop henv hc] at hj
        by_contra hgt
        have hlt : k < j := by omega
        have := processClips_attempted_no_earlier_fail
          env.transcodeFails env.deliverFails _ 0 j hj k (Nat.zero_le k) hlt
        rw [hk] at this
        simp at this
  · intro total k henv hc hk hfail hpre
    have hplr := processClips_fail_at env.transcodeFails env.deliverFails
      (numClips total c).toNat 0 k (Nat.zero_le k) (by omega) hfail
      (fun j _ hj => hpre j hj)
    rw [run_loop henv hc]
    simp only [hplr]
    constructor
    · simp
    · simp
  · rw [run_source]
    exact sessionCleanup_removes hrf

theorem pipeline_order_and_abort_witness :
    ((⟨some 180, fun i => decide (i = 1), fun _ => false,
        ⟨true, false⟩⟩ : Env).source.removeFails = false) ∧
    (get_color_and_process
        ⟨some 180, fun i => decide (i = 1), fun _ => false, ⟨true, false⟩⟩
        60).delivered = (List.range' 0 1).map (· + 1) ∧
    (get_color_and_process
        ⟨some 180, fun i => decide (i = 1), fun _ => false, ⟨true, false⟩⟩
        60).errors = 1 := by
  have h := pipeline_order_and_abort
    ⟨some 180, fun i => decide (i = 1), fun _ => false, ⟨true, false⟩⟩ 60 rfl
  have hn : numClips 180 60 = 3 := by norm_num [numClips, Int.ceil_eq_iff]
  have hpre : ∀ j < 1, fails (fun i => decide (i = 1))
      (fun _ : ℕ => false) j = false := by
    intro j hj
    have hj0 : j = 0 := by omega
    subst hj0
    rfl
  have h4 := h.2.2.2.1 180 1 rfl (by norm_num)
    (by rw [hn]; decide) (by rfl) hpre
  exact ⟨rfl, h4.1, h4.2⟩

/-- C4 counterexample: one window, whose delivery fails: the loop is left
with the part-1 artifact file still existing — the artifact is NOT deleted
when delivery fails, contradicting the claim that an artifact never
persists past its loop iteration. -/
theorem artifact_persists_on_delivery_failure :
    (get_color_and_process
        ⟨some 60, fun _ => false, fun _ => true, ⟨true, false⟩⟩
        60).artifacts = [1] := by
  have hn : numClips 60 60 = 1 := by norm_num [numClips, Int.ceil_eq_iff]
  rw [run_loop rfl (by norm_num)]
  simp [hn, processClips]

/-- C4 amended: an artifact whose delivery succeeded never persists (it is
deleted before the iteration ends, and a fully successful run leaves no
artifacts), but when delivery of the first failing window `k` fails after
a successful transcode, that window's artifact does persist past the run. -/
theorem artifact_lifecycle (env : Env) (c : ℤ) :
    (∀ p ∈ (get_color_and_process env c).delivered,
        p ∉ (get_color_and_process env c).artifacts) ∧
    ((get_color_and_process env c).allDone = true →
        (get_color_and_process env c).artifacts = []) ∧
    (∀ total k, env.probe = some total → c ≠ 0 →
      k < (numClips total c).toNat →
      env.transcodeFails k = false → env.deliverFails k = true →
      (∀ j, j < k → fails env.transcodeFails env.deliverFails j = false) →
      (get_color_and_process env c).artifacts = [k + 1]) := by
  refine ⟨?_, ?_, ?_⟩
  · intro p hp
    rcases henv : env.probe with _ | total
    · rw [run_probe_none henv] at hp; simp at hp
    · by_cases hc : c = 0
      · subst hc; rw [run_zero_duration henv] at hp; simp at hp
      · rw [run_loop henv hc] at hp ⊢
        exact processClips_delivered_not_artifact _ _ _ _ p hp
  · intro hok
    rcases henv : env.probe with _ | total
    · rw [run_probe_none henv] at hok; simp at hok
    · by_cases hc : c = 0
      · subst hc; rw [run_zero_duration henv] at hok; simp at hok
      · rw [run_loop henv hc] at hok ⊢
        exact (processClips_ok_all_delivered _ _ _ _ hok).1
  · intro total k henv hc hk htf hdf hpre
    have hfail : fails env.transcodeFails env.deliverFails k = true := by
      simp [fails, htf, hdf]
    have hplr := processClips_fail_at env.transcodeFails env.deliverFails
      (numClips total c).toNat 0 k (Nat.zero_le k) (by omega) hfail
      (fun j _ hj => hpre j hj)
    rw [run_loop henv hc]
    simp only [hplr, htf]
    simp

theorem artifact_lifecycle_witness :
    (get_color_and_process
        ⟨some 180, fun _ => false, fun i => decide (i = 1), ⟨true, false⟩⟩
        60).artifacts = [2] := by
  have h := artifact_lifecycle
    ⟨some 180, fun _ => false, fun i => decide (i = 1), ⟨true, false⟩⟩ 60
  have hn : numClips 180 60 = 3 := by norm_num [numClips, Int.ceil_eq_iff]
  have hpre : ∀ j < 1, fails (fun _ : ℕ => false)
      (fun i => decide (i = 1)) j = false := by
    intro j hj
    have hj0 : j = 0 := by omega
    subst hj0
    rfl
  exact h.2.2 180 1 rfl (by norm_num) (by rw [hn]; decide) rfl rfl hpre

/-- C5: the `finally` cleanup runs exactly once per job whatever the
outcome (probe failure, zero-division, clip failure, success), and —
provided deletion itself does not raise — the uploaded source file is
gone by the end; the `cancel` handler likewise leaves no source file when
one had been recorded. -/
theorem cleanup_exactly_once (env : Env) (c : ℤ)
    (hasVideoPath : Bool) (fs : FileState) :
    (get_color_and_process env c).cleanupCalls = 1 ∧
    (env.source.removeFails = false →
      ∃ fs', (get_color_and_process env c).source = Except.ok fs' ∧
        fs'.present = false) ∧
    (fs.removeFails = false →
      ∃ fs', cancel hasVideoPath fs = Except.ok fs' ∧
        (hasVideoPath = true → fs'.present = false)) := by
  refine ⟨run_cleanupCalls env c, ?_, ?_⟩
  · intro hrf
    rw [run_source]
    exact sessionCleanup_removes hrf
  · intro hrf
    cases hasVideoPath
    · exact ⟨fs, by simp [cancel], by simp⟩
    · obtain ⟨fs', h1, h2⟩ := sessionCleanup_removes hrf
      exact ⟨fs', by simpa [cancel] using h1, fun _ => h2⟩

theorem cleanup_exactly_once_witness :
    (get_color_and_process
        ⟨none, fun _ => false, fun _ => false, ⟨true, false⟩⟩
        60).cleanupCalls = 1 ∧
    (get_color_and_process
        ⟨none, fun _ => false, fun _ => false, ⟨true, false⟩⟩
        60).source = Except.ok ⟨false, false⟩ ∧
    cancel true ⟨true, false⟩ = Except.ok ⟨false, false⟩ := by
  have h := cleanup_exactly_once
    ⟨none, fun _ => false, fun _ => false, ⟨true, false⟩⟩ 60 true
    ⟨true, false⟩
  refine ⟨h.1, ?_, ?_⟩
  · obtain ⟨fs', h1, h2⟩ := h.2.1 rfl
    rw [h1]
    rcases fs' with ⟨p, r⟩
    have hr : r = false := by
      have := h1
      rw [run_source] at this
      simp [sessionCleanup] at this
      simp [this.2]
    simp at h2
    simp [h2, hr]
  · obtain ⟨fs', h1, h2⟩ := h.2.2 rfl
    rw [h1]
    have hfs : fs' = ⟨false, false⟩ := by
      have := h1
      simp [cancel, sessionCleanup] at this
      simp [this]
    rw [hfs]

/-- C7 counterexample: when the source file exists but `os.remove` raises
(e.g. a permission error), the cleanup propagates the error to the caller
instead of logging and swallowing it — there is no `try/except` around the
`finally` block's deletion. -/
theorem cleanup_error_propagates :
    sessionCleanup ⟨true, true⟩ = Except.error "OSError" := rfl

/-- C7 amended: the cleanup treats a missing file as success (so a second
call after a successful one also succeeds — idempotent), but a deletion
failure on an existing file is NOT swallowed: it raises past the job
boundary. -/
theorem cleanup_idempotent_but_can_raise :
    (∀ fs : FileState, fs.present = false → sessionCleanup fs = Except.ok fs) ∧
    (∀ fs fs' : FileState, sessionCleanup fs = Except.ok fs' →
        sessionCleanup fs' = Except.ok fs') ∧
    (∀ fs : FileState, fs.present = true → fs.removeFails = true →
        sessionCleanup fs = Except.error "OSError") := by
  refine ⟨?_, ?_, ?_⟩
  · intro fs h
    simp [sessionCleanup, h]
  · intro fs fs' h
    cases hp : fs.present
    · simp [sessionCleanup, hp] at h
      subst h
      simp [sessionCleanup, hp]
    · cases hr : fs.removeFails
      · simp [sessionCleanup, hp, hr] at h
        subst h
        simp [sessionCleanup]
      · simp [sessionCleanup, hp, hr] at h
  · intro fs h1 h2
    simp [sessionCleanup, h1, h2]

theorem cleanup_idempotent_but_can_raise_witness :
    ((⟨false, false⟩ : FileState).present = false ∧
      sessionCleanup ⟨false, false⟩ = Except.ok ⟨false, false⟩) ∧
    (sessionCleanup ⟨true, false⟩ = Except.ok ⟨false, false⟩ ∧
      sessionCleanup ⟨false, false⟩ = Except.ok ⟨false, false⟩) := by
  have h := cleanup_idempotent_but_can_raise
  exact ⟨⟨rfl, h.1 ⟨false, false⟩ rfl⟩,
    ⟨rfl, h.2.1 ⟨true, false⟩ ⟨false, false⟩ rfl⟩⟩

/-- C6 counterexample: the duration prompt accepts the strictly negative
input "-5" (it only rejects non-parseable text, it does not validate
positivity), and the core run with `requestedLength = -5 ≤ 0` does not
fail with any `InvalidInput` error: it reports zero errors and ends on the
success path. -/
theorem no_invalid_input_rejection :
    get_duration "-5" = DurationStep.accepted (-5) ∧
    (get_color_and_process
        ⟨some 100, fun _ => false, fun _ => false, ⟨true, false⟩⟩
        (-5)).errors = 0 ∧
    (get_color_and_process
        ⟨some 100, fun _ => false, fun _ => false, ⟨true, false⟩⟩
        (-5)).allDone = true := by
  have hn : numClips 100 (-5) = -20 := by
    norm_num [numClips, Int.ceil_eq_iff]
  have hrun := run_nonpos_numClips
    ⟨some 100, fun _ => false, fun _ => false, ⟨true, false⟩⟩
    100 (-5) rfl (by norm_num) (by rw [hn]; norm_num)
  refine ⟨by decide, ?_, ?_⟩ <;> rw [hrun]

/-- C6 amended: the front-end validates the entered duration only as a
parseable integer of either sign (re-prompting on a `ValueError`); the
core never signals an `InvalidInput` error for non-positive values:
a negative `requestedLength` (or a non-positive probed `totalDuration`)
yields a non-positive clip count, zero iterations and the success path,
and `requestedLength = 0` raises a generic `ZeroDivisionError`, reported
as the job's single (unspecific) error. -/
theorem duration_validation_actual :
    (∀ s, pyParseInt s = none → get_duration s = DurationStep.reprompt) ∧
    (∀ s z, pyParseInt s = some z → get_duration s = DurationStep.accepted z) ∧
    (∀ (env : Env) (total : ℚ) (c : ℤ), env.probe = some total →
      c < 0 → 0 < total →
      get_color_and_process env c =
        ⟨[], [], [], 0, true, 1, sessionCleanup env.source⟩) ∧
    (∀ (env : Env) (total : ℚ) (c : ℤ), env.probe = some total →
      0 < c → total ≤ 0 →
      get_color_and_process env c =
        ⟨[], [], [], 0, true, 1, sessionCleanup env.source⟩) ∧
    (∀ (env : Env) (total : ℚ), env.probe = some total →
      (get_color_and_process env 0).errors = 1 ∧
      (get_color_and_process env 0).allDone = false) := by
  refine ⟨?_, ?_, ?_, ?_, ?_⟩
  · intro s h
    simp [get_duration, h]
  · intro s z h
    simp [get_duration, h]
  · intro env total c henv hc ht
    have hcQ : ((c : ℚ)) < 0 := by exact_mod_cast hc
    have hdiv : total / (c : ℚ) < 0 := div_neg_of_pos_of_neg ht hcQ
    have hn : numClips total c ≤ 0 := Int.ceil_le.mpr (by exact_mod_cast hdiv.le)
    exact run_nonpos_numClips env total c henv (by omega) hn
  · intro env total c henv hc ht
    have hcQ : (0 : ℚ) < (c : ℚ) := by exact_mod_cast hc
    have hdiv : total / (c : ℚ) ≤ 0 := div_nonpos_of_nonpos_of_nonneg ht hcQ.le
    have hn : numClips total c ≤ 0 := Int.ceil_le.mpr (by exact_mod_cast hdiv)
    exact run_nonpos_numClips env total c henv (by omega) hn
  · intro env total henv
    rw [run_zero_duration henv]
    exact ⟨rfl, rfl⟩

theorem duration_validation_actual_witness :
    get_duration "abc" = DurationStep.reprompt ∧
    get_duration "42" = DurationStep.accepted 42 ∧
    get_color_and_process
        ⟨some 100, fun _ => false, fun _ => false, ⟨true, false⟩⟩ (-5) =
      ⟨[], [], [], 0, true, 1, Except.ok ⟨false, false⟩⟩ ∧
    (get_color_and_process
        ⟨some 100, fun _ => false, fun _ => false, ⟨true, false⟩⟩ 0).errors
      = 1 := by
  have h := duration_validation_actual
  refine ⟨h.1 "abc" (by decide), h.2.1 "42" 42 (by decide), ?_, ?_⟩
  · have := h.2.2.1
      ⟨some 100, fun _ => false, fun _ => false, ⟨true, false⟩⟩
      100 (-5) rfl (by norm_num) (by norm_num)
    rw [this]
    rfl
  · exact (h.2.2.2.2
      ⟨some 100, fun _ => false, fun _ => false, ⟨true, false⟩⟩
      100 rfl).1

/-- C10: a strictly negative entered duration is accepted by the prompt
(only non-parseable text is re-prompted); the pipeline then computes a
non-positive clip count, runs zero loop iterations, produces and delivers
no clips, reports no error and sends the all-done message. -/
theorem negative_duration_success_path (s : String) (z : ℤ) (env : Env)
    (total : ℚ) (hs : pyParseInt s = some z) (hz : z < 0)
    (henv : env.probe = some total) (ht : 0 < total) :
    get_duration s = DurationStep.accepted z ∧
    numClips total z ≤ 0 ∧
    get_color_and_process env z =
      ⟨[], [], [], 0, true, 1, sessionCleanup env.source⟩ := by
  have hzQ : ((z : ℚ)) < 0 := by exact_mod_cast hz
  have hdiv : total / (z : ℚ) < 0 := div_neg_of_pos_of_neg ht hzQ
  have hn : numClips total z ≤ 0 := Int.ceil_le.mpr (by exact_mod_cast hdiv.le)
  exact ⟨by simp [get_duration, hs],
    hn, run_nonpos_numClips env total z henv (by omega) hn⟩

theorem negative_duration_success_path_witness :
    pyParseInt "-5" = some (-5) ∧
    get_duration "-5" = DurationStep.accepted (-5) ∧
    get_color_and_process
        ⟨some 100, fun _ => false, fun _ => false, ⟨false, false⟩⟩ (-5) =
      ⟨[], [], [], 0, true, 1, Except.ok ⟨false, false⟩⟩ := by
  have h := negative_duration_success_path "-5" (-5)
    ⟨some 100, fun _ => false, fun _ => false, ⟨false, false⟩⟩ 100
    (by decide) (by norm_num) rfl (by norm_num)
  refine ⟨by decide, h.1, ?_⟩
  rw [h.2.2]
  rfl

end ClipMaker
